import Mathlib

/-!
Verification of the Permia consensus core (crates/permia) against its
natural-language specification.

The Rust sources are shallowly embedded:
* bytes are `ℕ` (each < 256), byte strings are `List ℕ`;
* the machine integers `u64` / `U256` are `ℕ` with explicit `% 2 ^ 64` /
  `% 2 ^ 256` where the Rust operation can wrap (ruint / primitive
  arithmetic wraps in release builds);
* the external hash crates (BLAKE3, SHA3-256, Keccak-256) are opaque
  parameters, packaged in `HashPrims`: the code under verification only
  forwards bytes to them, so every theorem is stated for an arbitrary
  choice of 32-byte-output hash functions;
* the `f64` arithmetic in `difficulty.rs` is modelled exactly: an IEEE
  binary64 value is represented by its exact rational value as a dyadic
  `num / 2 ^ exp`, and each operation rounds the exact rational result to
  53 significant bits, round-to-nearest, ties-to-even.  All values reached
  by the difficulty pipeline are finite and stay far inside the normal
  range, so overflow and subnormal rounding never occur;
* Rust `HashMap`s that the code only ever queries by key are association
  lists with insert-replace semantics.
-/

namespace Permia

/-! ## Byte-level utilities -/

/-- Little-endian bytes of a `u64`, as produced by `u64::to_le_bytes`. -/
def toLE8 (n : ℕ) : List ℕ :=
  [n % 256, n / 2 ^ 8 % 256, n / 2 ^ 16 % 256, n / 2 ^ 24 % 256,
   n / 2 ^ 32 % 256, n / 2 ^ 40 % 256, n / 2 ^ 48 % 256, n / 2 ^ 56 % 256]

/-- Big-endian bytes of a `u64`, as produced by `u64::to_be_bytes`. -/
def toBE8 (n : ℕ) : List ℕ := (toLE8 n).reverse

/-- Big-endian 32-byte encoding of a 256-bit value
(`U256::to_be_bytes::<32>`). -/
def toBE32 (n : ℕ) : List ℕ :=
  (List.range 32).map fun i => n / 2 ^ (8 * (31 - i)) % 256

/-- Interpret a byte string as a big-endian unsigned integer
(`u64::from_be_bytes`, `U256::from_be_bytes`). -/
def beNat (l : List ℕ) : ℕ := l.foldl (fun acc b => acc * 256 + b) 0

/-- Byte-wise XOR of two equal-length byte strings. -/
def xorBytes (a b : List ℕ) : List ℕ := List.zipWith Nat.xor a b

/-- The ASCII bytes of the epoch-seed domain tag (13 characters). -/
def epochTag : List ℕ := [112, 101, 114, 109, 105, 97, 95, 101, 112, 111, 99, 104, 95]

/-! ## The external hash primitives

`pow.rs` uses three cryptographic hash functions from external crates:
BLAKE3, SHA3-256 and Keccak-256.  Each maps an arbitrary byte string to a
32-byte digest.  They are abstracted as parameters: the consensus code
treats them as black boxes. -/

/-- The three external 32-byte-digest hash functions used by `pow.rs`. -/
structure HashPrims where
  blake3 : List ℕ → List ℕ
  sha3 : List ℕ → List ℕ
  keccak : List ℕ → List ℕ
  blake3_len : ∀ x, (blake3 x).length = 32
  sha3_len : ∀ x, (sha3 x).length = 32
  keccak_len : ∀ x, (keccak x).length = 32

/-- A degenerate instantiation of the hash primitives, used to evaluate
the embedding on closed inputs. -/
def constPrims : HashPrims where
  blake3 := fun x => List.replicate 31 0 ++ [x.length % 256]
  sha3 := fun x => List.replicate 31 1 ++ [x.length % 256]
  keccak := fun x => List.replicate 31 2 ++ [x.length % 256]
  blake3_len := fun x => by simp
  sha3_len := fun x => by simp
  keccak_len := fun x => by simp

/-! ## `pow.rs`: the PermiaHash proof of work -/

/-- `DAG_ELEMENTS = (4 * 1024 * 1024 * 1024) / 64` from `pow.rs`. -/
def dagElements : ℕ := 4 * 1024 * 1024 * 1024 / 64

/-- The alloy `Header` fields read by the consensus core.  Hash-like
fields are byte strings; numeric fields are `ℕ` (a `u64` or `U256` value);
`nonce` is the raw 8-byte `FixedBytes<8>` field. -/
structure Header where
  parentHash : List ℕ
  beneficiary : List ℕ
  stateRoot : List ℕ
  transactionsRoot : List ℕ
  receiptsRoot : List ℕ
  difficulty : ℕ
  number : ℕ
  gasLimit : ℕ
  gasUsed : ℕ
  timestamp : ℕ
  extraData : List ℕ
  mixHash : List ℕ
  nonce : List ℕ
  deriving DecidableEq

/-- `HashResult` from `pow.rs`. -/
structure HashResult where
  hash : List ℕ
  mixDigest : List ℕ
  deriving DecidableEq

/-- `generate_dag_element` from `pow.rs`: 64 bytes, first half
`SHA3-256(epoch_seed || index.to_le_bytes())`, second half
`SHA3-256(hash1 || (index ^ 0xFFFF_FFFF_FFFF_FFFF).to_le_bytes())`. -/
def generateDagElement (P : HashPrims) (epochSeed : List ℕ) (index : ℕ) : List ℕ :=
  let hash1 := P.sha3 (epochSeed ++ toLE8 index)
  let hash2 := P.sha3 (hash1 ++ toLE8 (Nat.xor index (2 ^ 64 - 1)))
  hash1 ++ hash2

/-- `compute_epoch_seed` from `pow.rs`:
`BLAKE3("permia_epoch_" || (block_number / 30000).to_le_bytes())`. -/
def computeEpochSeed (P : HashPrims) (blockNumber : ℕ) : List ℕ :=
  P.blake3 (epochTag ++ toLE8 (blockNumber / 30000))

/-- One iteration of the mixing loop in `permia_hash_with_epoch`
(loop body for round `i`). -/
def permiaRound (P : HashPrims) (epochSeed seed : List ℕ) (mix : List ℕ) (i : ℕ) : List ℕ :=
  let seedByte := seed.getD (i % 32) 0
  let index := seedByte * (i + 1) * 31337 % dagElements
  let dagElement := generateDagElement P epochSeed index
  let mixed := xorBytes mix dagElement
  let half1 := P.blake3 mixed
  let half2 := P.blake3 (half1 ++ [i % 256])
  half1 ++ half2

/-- `permia_hash_with_epoch` from `pow.rs`. -/
def permiaHashWithEpoch (P : HashPrims) (sealHash : List ℕ) (nonce blockNumber : ℕ) :
    HashResult :=
  let seed := P.blake3 (sealHash ++ toLE8 nonce)
  let epochSeed := computeEpochSeed P blockNumber
  let mix := (List.range 64).foldl (permiaRound P epochSeed seed) (seed ++ seed)
  { hash := P.blake3 mix, mixDigest := mix.take 32 }

/-- `compute_seal_hash` from `pow.rs`: Keccak-256 over all header fields
except `mix_hash` and `nonce`, in source order. -/
def computeSealHash (P : HashPrims) (h : Header) : List ℕ :=
  P.keccak (h.parentHash ++ h.beneficiary ++ h.stateRoot ++ h.transactionsRoot ++
    h.receiptsRoot ++ toBE32 h.difficulty ++ toBE8 h.number ++ toBE8 h.gasLimit ++
    toBE8 h.gasUsed ++ toBE8 h.timestamp ++ h.extraData)

/-- `difficulty_to_target` from `pow.rs`: `U256::MAX` for difficulty 0,
otherwise `U256::MAX / difficulty`. -/
def difficultyToTarget (difficulty : ℕ) : ℕ :=
  if difficulty = 0 then 2 ^ 256 - 1 else (2 ^ 256 - 1) / difficulty

/-- `PermiaConsensusError` from `consensus/src/lib.rs`. -/
inductive PermiaConsensusError where
  | invalidProofOfWork
  | invalidDifficulty
  | timestampTooOld
  | blockNumberMismatch
  | extraDataTooLarge
  | gasUsedExceedsLimit
  deriving DecidableEq

/-- `verify_pow` from `pow.rs`: recompute the PermiaHash from the seal
hash, the nonce (8 header bytes read big-endian) and the height, then
check the mix digest and the difficulty target. -/
def verifyPow (P : HashPrims) (h : Header) : Except PermiaConsensusError Unit :=
  let sealHash := computeSealHash P h
  let nonce := beNat h.nonce
  let result := permiaHashWithEpoch P sealHash nonce h.number
  if result.mixDigest ≠ h.mixHash then
    .error .invalidProofOfWork
  else
    let target := difficultyToTarget h.difficulty
    let hashValue := beNat result.hash
    if target < hashValue then .error .invalidProofOfWork else .ok ()

/-! ## Exact model of the IEEE binary64 arithmetic in `difficulty.rs`

`DifficultyCalculator::calculate` computes its adjustment factor in `f64`.
A finite binary64 value is represented here by its exact rational value,
written as a dyadic fraction `num / 2 ^ exp`.  `froundQ n d` rounds the
exact rational `n / d` to 53 significant bits, round-to-nearest with ties
to even — the IEEE semantics of every `f64` operation on the values the
difficulty pipeline reaches (all of which lie well inside the normal
finite range, so neither overflow nor subnormal rounding can occur). -/

/-- Number of binary digits of `n` (`0` for `n = 0`), computed with
explicit fuel so that it reduces definitionally. -/
def bitlenAux : ℕ → ℕ → ℕ
  | 0, _ => 0
  | _ + 1, 0 => 0
  | fuel + 1, n + 1 => bitlenAux fuel ((n + 1) / 2) + 1

/-- Number of binary digits of `n`: `2 ^ (bitlen n - 1) ≤ n < 2 ^ bitlen n`
for `n ≠ 0`. -/
def bitlen (n : ℕ) : ℕ := bitlenAux 1000 n

/-- Round the rational `a / b` (with `b ≠ 0`) to the nearest integer,
ties to even. -/
def rneDiv (a b : ℕ) : ℕ :=
  let q := a / b
  let r := a % b
  if 2 * r < b then q
  else if b < 2 * r then q + 1
  else if q % 2 = 0 then q else q + 1

/-- Exact value of an IEEE binary64 number: `num / 2 ^ exp`. -/
structure Dyadic where
  num : ℤ
  exp : ℕ
  deriving DecidableEq

/-- Round the positive rational `num / den` to 53 significant binary
digits, round-to-nearest ties-to-even; the result is returned as a pair
`(m, s)` standing for `m / 2 ^ s`. -/
def froundPos (num den : ℕ) : ℕ × ℕ :=
  let bn := bitlen num
  let bd := bitlen den
  -- whether num / den ≥ 2 ^ (bn - bd)
  let ge := if bd ≤ bn then den * 2 ^ (bn - bd) ≤ num else den ≤ num * 2 ^ (bd - bn)
  -- e with 2 ^ e ≤ num / den < 2 ^ (e + 1)
  let e : ℤ := if ge then (bn : ℤ) - bd else (bn : ℤ) - bd - 1
  let s : ℤ := 52 - e
  if 0 ≤ s then (rneDiv (num * 2 ^ s.toNat) den, s.toNat)
  else (rneDiv num (den * 2 ^ (-s).toNat) * 2 ^ (-s).toNat, 0)

/-- Round the exact rational `n / d` (with `d ≠ 0`) to binary64. -/
def froundQ (n : ℤ) (d : ℕ) : Dyadic :=
  if n = 0 then ⟨0, 0⟩
  else
    let p := froundPos n.natAbs d
    ⟨if n < 0 then -(p.1 : ℤ) else (p.1 : ℤ), p.2⟩

/-- The binary64 value of the literal `0.1`:
`0.1f64 = 3602879701896397 / 2 ^ 55`. -/
def f64OfTenth : Dyadic := ⟨3602879701896397, 55⟩

/-! ## `difficulty.rs`: the difficulty controller -/

/-- `MIN_DIFFICULTY = 1 << 20` (`DifficultyCalculator::new`). -/
def minDifficulty : ℕ := 2 ^ 20

/-- The `f64` adjustment value computed by `DifficultyCalculator::calculate`
for a time difference `timeDiff = Δ > 0`:
`((400.0 - Δ as f64) / 400.0 * 0.1).clamp(-0.25, 0.25)`,
every operation rounding per IEEE binary64. -/
def rawAdjustment (timeDiff : ℕ) : Dyadic :=
  let actual := froundQ timeDiff 1
  let diff := froundQ (400 * 2 ^ actual.exp - actual.num) (2 ^ actual.exp)
  let quot := froundQ diff.num (400 * 2 ^ diff.exp)
  let raw := froundQ (quot.num * f64OfTenth.num) (2 ^ (quot.exp + f64OfTenth.exp))
  -- `f64::clamp (-0.25) 0.25`; both bounds are exactly representable
  if raw.num * 4 < -(2 ^ raw.exp : ℤ) then ⟨-1, 2⟩
  else if (2 ^ raw.exp : ℤ) < raw.num * 4 then ⟨1, 2⟩
  else raw

/-- `DifficultyCalculator::apply_adjustment`, given the exact value of the
`f64` `adjustment`: `multiplier = 1.0 + adjustment`,
`multiplier_fixed = (multiplier * 1_000_000.0) as u64` (truncation toward
zero, saturating at the `u64` bounds), then
`difficulty * multiplier_fixed / 1_000_000` in 256-bit arithmetic
(the product wraps at `2 ^ 256`), floored at `minDifficulty`. -/
def applyAdjustment (difficulty : ℕ) (adjustment : Dyadic) : ℕ :=
  let multiplier := froundQ (2 ^ adjustment.exp + adjustment.num) (2 ^ adjustment.exp)
  let scaled := froundQ (multiplier.num * 1000000) (2 ^ multiplier.exp)
  let multiplierFixed :=
    if scaled.num ≤ 0 then 0 else min (2 ^ 64 - 1) (scaled.num.toNat / 2 ^ scaled.exp)
  let newDifficulty := difficulty * multiplierFixed % 2 ^ 256 / 1000000
  if newDifficulty < minDifficulty then minDifficulty else newDifficulty

/-- `DifficultyCalculator::calculate`: the next difficulty from the parent
difficulty, the parent timestamp, and the candidate timestamp. -/
def calculate (parentDifficulty parentTimestamp timestamp : ℕ) : ℕ :=
  let timeDiff := timestamp - parentTimestamp
  if timeDiff = 0 then applyAdjustment parentDifficulty f64OfTenth
  else applyAdjustment parentDifficulty (rawAdjustment timeDiff)

/-! ## `reth.rs`: the parent-relative difficulty check -/

/-- `PermiaPoWConsensus::validate_difficulty`: the header difficulty must
lie in `[expected * 95 / 100, expected * 105 / 100]` where `expected` is
the controller's output for the parent and the header timestamp; the
multiplications are 256-bit (wrapping). -/
def validateDifficulty (h parent : Header) : Bool :=
  let expected := calculate parent.difficulty parent.timestamp h.timestamp
  let minAllowed := expected * 95 % 2 ^ 256 / 100
  let maxAllowed := expected * 105 % 2 ^ 256 / 100
  ¬(h.difficulty < minAllowed ∨ maxAllowed < h.difficulty)

/-! ## Association lists

`HashMap`s in the finality crate are only ever queried by key; they are
modelled as association lists with insert-replace semantics.  Keys
(`B256` block hashes, `Address` validator addresses) are opaque values
used only for equality, embedded as `ℕ`. -/

/-- Lookup in an association list (`HashMap::get`). -/
def lookupAssoc {α : Type} : List (ℕ × α) → ℕ → Option α
  | [], _ => none
  | (k, v) :: rest, key => if k = key then some v else lookupAssoc rest key

/-- Key membership in an association list (`HashMap::contains_key`). -/
def containsKey {α : Type} (l : List (ℕ × α)) (key : ℕ) : Bool :=
  (lookupAssoc l key).isSome

/-- Insert into an association list, replacing any existing binding
(`HashMap::insert`). -/
def insertAssoc {α : Type} : List (ℕ × α) → ℕ → α → List (ℕ × α)
  | [], key, v => [(key, v)]
  | (k, w) :: rest, key, v =>
    if k = key then (k, v) :: rest else (k, w) :: insertAssoc rest key v

/-- Remove a key from an association list (`HashMap::remove`). -/
def removeAssoc {α : Type} : List (ℕ × α) → ℕ → List (ℕ × α)
  | [], _ => []
  | (k, w) :: rest, key => if k = key then rest else (k, w) :: removeAssoc rest key

/-! ## `validator.rs`: validators and the active set -/

/-- `MIN_STAKE = 10_000 * 10 ^ 18` from `finality/src/lib.rs`. -/
def minStake : ℕ := 10000 * 10 ^ 18

/-- `VALIDATOR_SET_SIZE = 100` from `finality/src/lib.rs`. -/
def validatorSetSize : ℕ := 100

/-- `Validator` from `validator.rs`. -/
structure Validator where
  address : ℕ
  stake : ℕ
  serviceScore : ℕ
  weight : ℕ
  active : Bool
  deriving DecidableEq

/-- `Validator::new`: weight is `stake.saturating_add(service_score * 10^18)`
(the `u64 → U256` product cannot wrap; the add saturates at `2^256 - 1`). -/
def mkValidator (address stake serviceScore : ℕ) : Validator :=
  { address := address
    stake := stake
    serviceScore := serviceScore
    weight := min (2 ^ 256 - 1) (stake + serviceScore * 10 ^ 18)
    active := true }

/-- `Validator::meets_minimum_stake`. -/
def meetsMinimumStake (v : Validator) : Bool := minStake ≤ v.stake

/-- `ValidatorSet` from `validator.rs`: a map from address to validator
plus the ordered list of active addresses. -/
structure ValidatorSet where
  validators : List (ℕ × Validator)
  ordered : List ℕ
  epoch : ℕ
  activeFromBlock : ℕ
  deriving DecidableEq

/-- `ValidatorSet::reorder`: stable-sort the stored validators by weight
descending (Rust `sort_by(|a, b| b.weight.cmp(&a.weight))`, a stable
sort) and keep the first `VALIDATOR_SET_SIZE` addresses.  There is no
eligibility filter and no secondary sort key. -/
def reorder (vs : List (ℕ × Validator)) : List ℕ :=
  ((vs.map Prod.snd).insertionSort fun a b => b.weight ≤ a.weight).take validatorSetSize
    |>.map Validator.address

/-- `ValidatorSet::from_validators`. -/
def fromValidators (vs : List Validator) (epoch activeFromBlock : ℕ) : ValidatorSet :=
  let m := vs.foldl (fun acc v => insertAssoc acc v.address v) []
  { validators := m, ordered := reorder m, epoch := epoch,
    activeFromBlock := activeFromBlock }

/-- `ValidatorSet::is_validator`: membership in the ordered list. -/
def isValidator (A : ValidatorSet) (address : ℕ) : Bool := A.ordered.contains address

/-- `ValidatorSet::finality_threshold`: `len * 2 / 3 + 1`. -/
def finalityThreshold (A : ValidatorSet) : ℕ := A.ordered.length * 2 / 3 + 1

/-! ## `vote.rs`: votes and the aggregator -/

/-- `Vote` from `vote.rs`.  The signature is an arbitrary byte string. -/
structure Vote where
  blockHash : ℕ
  blockNumber : ℕ
  validator : ℕ
  signature : List ℕ
  deriving DecidableEq

/-- `FinalityError` from `finality/src/lib.rs` (the variants reachable
from the aggregator). -/
inductive FinalityError where
  | invalidSignature
  | notValidator (address : ℕ)
  | duplicateVote (address : ℕ) (blockHash : ℕ)
  | blockNotFound (blockHash : ℕ)
  deriving DecidableEq

/-- `Vote::verify`: the source accepts every vote
(`// TODO: Implement ECDSA signature verification ... Ok(())`). -/
def voteVerify (_ : Vote) : Except FinalityError Unit := .ok ()

/-- `VoteAggregator` from `vote.rs`: per-block vote maps plus the set of
finalized block hashes. -/
structure VoteAggregator where
  votes : List (ℕ × List (ℕ × Vote))
  finalized : List ℕ
  deriving DecidableEq

/-- The empty aggregator (`VoteAggregator::new`). -/
def emptyAggregator : VoteAggregator := ⟨[], []⟩

/-- `VoteAggregator::vote_count`. -/
def voteCount (agg : VoteAggregator) (blockHash : ℕ) : ℕ :=
  ((lookupAssoc agg.votes blockHash).getD []).length

/-- `VoteAggregator::is_finalized`. -/
def isFinalized (agg : VoteAggregator) (blockHash : ℕ) : Bool :=
  agg.finalized.contains blockHash

/-- Whether a validator has already voted for a block. -/
def hasVoted (agg : VoteAggregator) (blockHash validator : ℕ) : Bool :=
  containsKey ((lookupAssoc agg.votes blockHash).getD []) validator

/-- `VoteAggregator::add_vote`: returns the `Result<bool>` together with
the updated aggregator (the receiver is `&mut self` in Rust). -/
def addVote (agg : VoteAggregator) (vote : Vote) (A : ValidatorSet) :
    Except FinalityError Bool × VoteAggregator :=
  if ¬ isValidator A vote.validator then
    (.error (.notValidator vote.validator), agg)
  else
    match voteVerify vote with
    | .error e => (.error e, agg)
    | .ok () =>
      let blockVotes := (lookupAssoc agg.votes vote.blockHash).getD []
      if containsKey blockVotes vote.validator then
        (.error (.duplicateVote vote.validator vote.blockHash), agg)
      else
        let blockVotes' := blockVotes ++ [(vote.validator, vote)]
        let votes' := insertAssoc agg.votes vote.blockHash blockVotes'
        if finalityThreshold A ≤ blockVotes'.length ∧
            ¬ agg.finalized.contains vote.blockHash then
          (.ok true, { votes := votes', finalized := agg.finalized ++ [vote.blockHash] })
        else
          (.ok false, { votes := votes', finalized := agg.finalized })

/-- `VoteAggregator::prune_before`: retain the vote map of a block iff it
holds some vote with `block_number ≥` the cutoff.  The finalized set is
untouched. -/
def pruneBefore (agg : VoteAggregator) (blockNumber : ℕ) : VoteAggregator :=
  { agg with
    votes := agg.votes.filter fun p => p.2.any fun q => blockNumber ≤ q.2.blockNumber }

/-! ## `finality.rs`: the finality tracker -/

/-- `IMPLICIT_FINALITY_DEPTH = 3` from `finality/src/lib.rs`. -/
def implicitFinalityDepth : ℕ := 3

/-- `FinalityTracker` from `finality.rs`. -/
structure FinalityTracker where
  votes : VoteAggregator
  depths : List (ℕ × ℕ)
  chain : List ℕ
  maxChainLength : ℕ
  deriving DecidableEq

/-- `FinalityTracker::new`. -/
def newTracker : FinalityTracker := ⟨emptyAggregator, [], [], 1000⟩

/-- `FinalityTracker::add_block`: prepend the hash, re-index every depth,
then drop the tail beyond `max_chain_length` and erase its depths. -/
def addBlock (t : FinalityTracker) (blockHash : ℕ) : FinalityTracker :=
  let chain' := blockHash :: t.chain
  let depths' := chain'.enum.foldl (fun d p => insertAssoc d p.2 p.1) t.depths
  if t.maxChainLength < chain'.length then
    let removed := chain'.drop t.maxChainLength
    { t with
      chain := chain'.take t.maxChainLength
      depths := removed.foldl removeAssoc depths' }
  else
    { t with chain := chain', depths := depths' }

/-- First pass of `FinalityTracker::latest_finalized`: the first hash in
the chain that the aggregator marks final. -/
def findBftFinal (agg : VoteAggregator) : List ℕ → Option ℕ
  | [] => none
  | h :: rest => if isFinalized agg h then some h else findBftFinal agg rest

/-- Second pass of `FinalityTracker::latest_finalized`: the first hash in
the chain whose recorded depth is at least `IMPLICIT_FINALITY_DEPTH`. -/
def findDepthFinal (depths : List (ℕ × ℕ)) : List ℕ → Option ℕ
  | [] => none
  | h :: rest =>
    match lookupAssoc depths h with
    | some d => if implicitFinalityDepth ≤ d then some h else findDepthFinal depths rest
    | none => findDepthFinal depths rest

/-- `FinalityTracker::latest_finalized`: scan the whole chain for a
BFT-finalized hash first; only if none exists, scan for a depth-finalized
hash. -/
def latestFinalized (t : FinalityTracker) : Option ℕ :=
  match findBftFinal t.votes t.chain with
  | some h => some h
  | none => findDepthFinal t.depths t.chain

/-! ## Specification-side definitions

These follow the wording of the specification (and of the claims), to be
compared with the embeddings above. -/

/-- Spec §4.1 step (b): the 64-byte DAG element for `(E, idx)`: first half
`SHA3-256(E || LE(idx))`, second half
`SHA3-256(first half || LE(idx XOR 0xFFFF_FFFF_FFFF_FFFF))`. -/
def specDagElement (P : HashPrims) (E : List ℕ) (idx : ℕ) : List ℕ :=
  let firstHalf := P.sha3 (E ++ toLE8 idx)
  firstHalf ++ P.sha3 (firstHalf ++ toLE8 (Nat.xor idx (2 ^ 64 - 1)))

/-- Spec §4.1: the 64-byte mixer after `n` rounds, starting from
`seed || seed`; round `i` picks `idx = (seed[i mod 32]·(i+1)·31337) mod
67108864`, XORs in the DAG element, then sets the first 32 bytes to
`BLAKE3(M)` and the second 32 bytes to `BLAKE3(first 32 bytes || byte i)`. -/
def specMixer (P : HashPrims) (seed E : List ℕ) : ℕ → List ℕ
  | 0 => seed ++ seed
  | i + 1 =>
    let M := specMixer P seed E i
    let idx := seed.getD (i % 32) 0 * (i + 1) * 31337 % 67108864
    let mixed := xorBytes M (specDagElement P E idx)
    let firstHalf := P.blake3 mixed
    firstHalf ++ P.blake3 (firstHalf ++ [i % 256])

/-- Spec §4.1: PermiaHash of (seal hash `S`, nonce `N`, height `H`):
`seed = BLAKE3(S || LE(N))`, `E = BLAKE3("permia_epoch_" || LE(⌊H/30000⌋))`,
final digest `BLAKE3(M)` and mix digest the first 32 bytes of `M` after
round 64. -/
def specPermiaHash (P : HashPrims) (S : List ℕ) (N H : ℕ) : HashResult :=
  let seed := P.blake3 (S ++ toLE8 N)
  let E := P.blake3 (epochTag ++ toLE8 (H / 30000))
  { hash := P.blake3 (specMixer P seed E 64), mixDigest := (specMixer P seed E 64).take 32 }

/-- Spec §3: the seal-hash preimage — every header field except mix digest
and nonce, in the order parent hash, beneficiary, state root, transactions
root, receipts root, difficulty (32 big-endian bytes), height, gas limit,
gas used, timestamp, extra data. -/
def specSealPreimage (h : Header) : List ℕ :=
  h.parentHash ++ h.beneficiary ++ h.stateRoot ++ h.transactionsRoot ++
    h.receiptsRoot ++ toBE32 h.difficulty ++ toBE8 h.number ++ toBE8 h.gasLimit ++
    toBE8 h.gasUsed ++ toBE8 h.timestamp ++ h.extraData

/-- Two headers agree on every field that enters the seal hash (all fields
except mix digest and nonce). -/
def sealFieldsEq (h1 h2 : Header) : Prop :=
  h1.parentHash = h2.parentHash ∧ h1.beneficiary = h2.beneficiary ∧
    h1.stateRoot = h2.stateRoot ∧ h1.transactionsRoot = h2.transactionsRoot ∧
    h1.receiptsRoot = h2.receiptsRoot ∧ h1.difficulty = h2.difficulty ∧
    h1.number = h2.number ∧ h1.gasLimit = h2.gasLimit ∧ h1.gasUsed = h2.gasUsed ∧
    h1.timestamp = h2.timestamp ∧ h1.extraData = h2.extraData

instance (h1 h2 : Header) : Decidable (sealFieldsEq h1 h2) := by
  unfold sealFieldsEq; infer_instance

/-- Claim C8's reading of `latest_finalized`: the first hash in the
sequence that satisfies either finality rule (BFT-final, or recorded
depth ≥ 3). -/
def specFirstFinal (t : FinalityTracker) : Option ℕ :=
  t.chain.find? fun h =>
    isFinalized t.votes h ||
      match lookupAssoc t.depths h with
      | some d => decide (implicitFinalityDepth ≤ d)
      | none => false

/-! ## Helper lemmas -/

lemma foldl_range_permiaRound (P : HashPrims) (E seed : List ℕ) (n : ℕ) :
    (List.range n).foldl (permiaRound P E seed) (seed ++ seed) = specMixer P seed E n := by
  induction n with
  | zero => rfl
  | succ n ih =>
    rw [List.range_succ, List.foldl_append, ih]
    show permiaRound P E seed (specMixer P seed E n) n = specMixer P seed E (n + 1)
    conv_rhs => rw [specMixer]
    unfold permiaRound generateDagElement specDagElement dagElements
    norm_num

/-- A pair of concrete headers, equal except for mix digest and nonce. -/
def hdrA : Header :=
  { parentHash := List.replicate 32 1, beneficiary := List.replicate 20 2,
    stateRoot := List.replicate 32 3, transactionsRoot := List.replicate 32 4,
    receiptsRoot := List.replicate 32 5, difficulty := 6, number := 7,
    gasLimit := 8, gasUsed := 9, timestamp := 10, extraData := [11],
    mixHash := List.replicate 32 12, nonce := [0, 0, 0, 0, 0, 0, 0, 13] }

/-- `hdrA` with a different mix digest and nonce. -/
def hdrB : Header :=
  { hdrA with mixHash := List.replicate 32 99, nonce := [0, 0, 0, 0, 0, 0, 0, 14] }

/-! ## The claims -/

/-- Claim C1: for every header `h` (and any instantiation of the hash
primitives), `verify_pow h` accepts iff the mix digest recomputed by
PermiaHash from (seal hash of `h`, `h`'s nonce read as a big-endian u64,
`h`'s height) equals `h`'s mix digest and the recomputed final digest,
read as a big-endian 256-bit unsigned integer, is at most
`target(h.difficulty)` where `target d = (2 ^ 256 - 1) / d` for `d ≠ 0`
and `target 0 = 2 ^ 256 - 1`; otherwise it returns the
`InvalidProofOfWork` error. -/
theorem claim_C1 (P : HashPrims) (h : Header) :
    verifyPow P h =
      if (permiaHashWithEpoch P (computeSealHash P h) (beNat h.nonce) h.number).mixDigest
            = h.mixHash ∧
          beNat (permiaHashWithEpoch P (computeSealHash P h) (beNat h.nonce) h.number).hash
            ≤ (if h.difficulty = 0 then 2 ^ 256 - 1 else (2 ^ 256 - 1) / h.difficulty) then
        Except.ok ()
      else Except.error PermiaConsensusError.invalidProofOfWork := by
  unfold verifyPow difficultyToTarget
  by_cases hm :
      (permiaHashWithEpoch P (computeSealHash P h) (beNat h.nonce) h.number).mixDigest
        = h.mixHash
  · simp only [hm, ite_not, if_pos rfl, true_and]
    by_cases hv :
        beNat (permiaHashWithEpoch P (computeSealHash P h) (beNat h.nonce) h.number).hash
          ≤ (if h.difficulty = 0 then 2 ^ 256 - 1 else (2 ^ 256 - 1) / h.difficulty)
    · rw [if_pos hv, if_neg (Nat.not_lt.mpr hv)]
      simp
    · rw [if_neg hv, if_pos (Nat.lt_of_not_le hv)]
      simp
  · simp [hm]

/-- Claim C2: `permia_hash_with_epoch` computes exactly the algorithm of
spec §4.1, for every seal hash, nonce, height, and instantiation of the
hash primitives. -/
theorem claim_C2 (P : HashPrims) (S : List ℕ) (N H : ℕ) :
    permiaHashWithEpoch P S N H = specPermiaHash P S N H := by
  unfold permiaHashWithEpoch specPermiaHash computeEpochSeed
  simp only [foldl_range_permiaRound]

/-- Claim C9: the seal hash is Keccak-256 of exactly the header fields
other than mix digest and nonce, in the spec's order; consequently two
headers differing only in mix digest and/or nonce have equal seal
hashes. -/
theorem claim_C9 :
    (∀ (P : HashPrims) (h : Header), computeSealHash P h = P.keccak (specSealPreimage h)) ∧
      ∀ (P : HashPrims) (h1 h2 : Header), sealFieldsEq h1 h2 →
        computeSealHash P h1 = computeSealHash P h2 := by
  constructor
  · intro P h
    rfl
  · intro P h1 h2 he
    obtain ⟨e1, e2, e3, e4, e5, e6, e7, e8, e9, e10, e11⟩ := he
    unfold computeSealHash
    rw [e1, e2, e3, e4, e5, e6, e7, e8, e9, e10, e11]

/-- Witness for claim C9 at concrete inputs: `hdrA` and `hdrB` differ only
in mix digest and nonce, and their seal hashes agree. -/
theorem claim_C9_witness :
    sealFieldsEq hdrA hdrB ∧ computeSealHash constPrims hdrA = computeSealHash constPrims hdrB :=
  ⟨by decide, claim_C9.2 constPrims hdrA hdrB (by decide)⟩

/-- The controller's output never exceeds `(2 ^ 256 - 1) / 1000000`:
`apply_adjustment` ends with a division by `10 ^ 6` of a 256-bit value
(and the `2 ^ 20` floor is far below that bound). -/
lemma floorToMin_le (x : ℕ) :
    (if x % 2 ^ 256 / 1000000 < minDifficulty then minDifficulty
      else x % 2 ^ 256 / 1000000) ≤ (2 ^ 256 - 1) / 1000000 := by
  split
  · decide
  · exact Nat.div_le_div_right (Nat.le_sub_one_of_lt (Nat.mod_lt x (by norm_num)))

lemma applyAdjustment_le (d : ℕ) (a : Dyadic) :
    applyAdjustment d a ≤ (2 ^ 256 - 1) / 1000000 := by
  unfold applyAdjustment
  dsimp only
  exact floorToMin_le _

/-- Bound on `DifficultyCalculator::calculate`. -/
lemma calculate_le (pd pts ts : ℕ) :
    calculate pd pts ts ≤ (2 ^ 256 - 1) / 1000000 := by
  unfold calculate
  dsimp only
  split
  · exact applyAdjustment_le pd f64OfTenth
  · exact applyAdjustment_le pd (rawAdjustment (ts - pts))

/-- Claim C6: a header's stated difficulty passes the parent-relative
difficulty check iff it lies in `[⌊D'·95/100⌋, ⌊D'·105/100⌋]`, where `D'`
is the difficulty controller's output for the parent and the header
timestamp.  (The 256-bit products `D'·95` and `D'·105` cannot wrap,
because `D'` is bounded by `(2^256 - 1) / 10^6`.) -/
theorem claim_C6 (h parent : Header) :
    validateDifficulty h parent = true ↔
      calculate parent.difficulty parent.timestamp h.timestamp * 95 / 100 ≤ h.difficulty ∧
        h.difficulty ≤ calculate parent.difficulty parent.timestamp h.timestamp * 105 / 100 := by
  unfold validateDifficulty
  have hb := calculate_le parent.difficulty parent.timestamp h.timestamp
  have h95 : calculate parent.difficulty parent.timestamp h.timestamp * 95 < 2 ^ 256 :=
    lt_of_le_of_lt (Nat.mul_le_mul_right 95 hb) (by decide)
  have h105 : calculate parent.difficulty parent.timestamp h.timestamp * 105 < 2 ^ 256 :=
    lt_of_le_of_lt (Nat.mul_le_mul_right 105 hb) (by decide)
  simp only [Nat.mod_eq_of_lt h95, Nat.mod_eq_of_lt h105, decide_eq_true_eq, not_or,
    Nat.not_lt]

set_option maxRecDepth 100000 in
/-- Claim C3 is a code bug: for parent difficulty `10^7`, parent timestamp
`1_000_000` and candidate timestamp `1_000_207` (Δ = 207 ms), the code —
which computes the `(1 + a)` multiplier in `f64` and truncates — yields
`D' = 10_482_490`, while the exact fixed-point procedure the claim (and
spec §4.2) prescribes encodes `1 + a` as `(4400 - 207) · 250 = 1_048_250`
and yields `D' = 10_482_500`. -/
theorem claim_C3_code_bug :
    calculate 10000000 1000000 1000207 = 10482490 ∧
      max minDifficulty (10000000 * ((4400 - 207) * 250) / 1000000) = 10482500 := by
  refine ⟨?_, ?_⟩
  · decide
  · decide

/-! ## Lemmas about the vote aggregator -/

lemma lookupAssoc_insertAssoc {α : Type} (l : List (ℕ × α)) (k : ℕ) (v : α) :
    lookupAssoc (insertAssoc l k v) k = some v := by
  induction l with
  | nil => simp [insertAssoc, lookupAssoc]
  | cons p rest ih =>
    obtain ⟨k', w⟩ := p
    by_cases hk : k' = k
    · simp [insertAssoc, lookupAssoc, hk]
    · simp [insertAssoc, lookupAssoc, hk, ih]

/-- Full description of the accepting branch of `add_vote`: with the
signer in the active set and no previous vote for this block by the
signer, the call succeeds; the returned flag is `true` exactly when the
new tally reaches the threshold and the block was not final before; the
tally grows by one; and the block is final afterwards iff the new tally
reaches the threshold or the block was final before. -/
lemma addVote_accepted (agg : VoteAggregator) (v : Vote) (A : ValidatorSet)
    (hv : isValidator A v.validator = true)
    (hnv : hasVoted agg v.blockHash v.validator = false) :
    (addVote agg v A).1 =
        Except.ok (decide (finalityThreshold A ≤ voteCount agg v.blockHash + 1 ∧
          isFinalized agg v.blockHash = false)) ∧
      voteCount (addVote agg v A).2 v.blockHash = voteCount agg v.blockHash + 1 ∧
      isFinalized (addVote agg v A).2 v.blockHash =
        (decide (finalityThreshold A ≤ voteCount agg v.blockHash + 1) ||
          isFinalized agg v.blockHash) := by
  unfold addVote voteVerify
  unfold hasVoted at hnv
  by_cases hf : agg.finalized.contains v.blockHash
    <;> by_cases ht : finalityThreshold A ≤ voteCount agg v.blockHash + 1
    <;> simp_all [voteCount, isFinalized, lookupAssoc_insertAssoc, List.elem_iff, -not_le, -Nat.not_le]

/-- Claim C4: `add_vote` rejects with `NotValidator` when the signer is
not in the active set; rejects with `DuplicateVote` when the signer has
already voted for this block hash; otherwise inserts the vote and signals
`true` exactly when the insertion brings the distinct-voter tally to the
finality threshold `⌊2·|A|/3⌋ + 1` and the block was not already final
(in particular a later accepted vote for a final block signals `false`),
marking the block final. -/
theorem claim_C4 (agg : VoteAggregator) (v : Vote) (A : ValidatorSet) :
    (isValidator A v.validator = false →
        addVote agg v A = (.error (.notValidator v.validator), agg)) ∧
      (isValidator A v.validator = true → hasVoted agg v.blockHash v.validator = true →
        addVote agg v A = (.error (.duplicateVote v.validator v.blockHash), agg)) ∧
      (isValidator A v.validator = true → hasVoted agg v.blockHash v.validator = false →
        (addVote agg v A).1 =
            Except.ok (decide (A.ordered.length * 2 / 3 + 1 ≤ voteCount agg v.blockHash + 1 ∧
              isFinalized agg v.blockHash = false)) ∧
          voteCount (addVote agg v A).2 v.blockHash = voteCount agg v.blockHash + 1 ∧
          isFinalized (addVote agg v A).2 v.blockHash =
            (decide (A.ordered.length * 2 / 3 + 1 ≤ voteCount agg v.blockHash + 1) ||
              isFinalized agg v.blockHash)) := by
  refine ⟨fun hv => ?_, fun hv hd => ?_, fun hv hnv => ?_⟩
  · unfold addVote
    simp [hv]
  · unfold addVote voteVerify
    unfold hasVoted at hd
    simp [hv, hd]
  · exact addVote_accepted agg v A hv hnv

/-- A concrete four-validator set (addresses 1–4), threshold
`4·2/3 + 1 = 3`. -/
def setW : ValidatorSet :=
  fromValidators
    [mkValidator 1 5 0, mkValidator 2 5 0, mkValidator 3 5 0, mkValidator 4 5 0] 1 0

/-- A concrete aggregator holding two votes for block 7, by validators 1
and 2. -/
def aggW : VoteAggregator :=
  ⟨[(7, [(1, ⟨7, 9, 1, List.replicate 65 0⟩), (2, ⟨7, 9, 2, List.replicate 65 0⟩)])], []⟩

/-- Validator 3's vote for block 7. -/
def voteW : Vote := ⟨7, 9, 3, List.replicate 65 0⟩

/-- Witness for claim C4: validator 3's vote for block 7 is the third of
three needed votes; `add_vote` accepts it and reports the first
crossing. -/
theorem claim_C4_witness :
    (addVote aggW voteW setW).1 =
        Except.ok (decide (setW.ordered.length * 2 / 3 + 1 ≤ voteCount aggW voteW.blockHash + 1 ∧
          isFinalized aggW voteW.blockHash = false)) ∧
      voteCount (addVote aggW voteW setW).2 voteW.blockHash = voteCount aggW voteW.blockHash + 1 ∧
      isFinalized (addVote aggW voteW setW).2 voteW.blockHash =
        (decide (setW.ordered.length * 2 / 3 + 1 ≤ voteCount aggW voteW.blockHash + 1) ||
          isFinalized aggW voteW.blockHash) :=
  (claim_C4 aggW voteW setW).2.2 (by decide) (by decide)

/-- Claim C10: `Vote::verify` accepts every vote regardless of its
signature bytes, so `add_vote` never rejects a vote for an invalid
signature: a vote carrying any signature whatsoever is accepted whenever
its signer is in the active set and has not already voted for that
block. -/
theorem claim_C10 (agg : VoteAggregator) (v : Vote) (A : ValidatorSet) :
    voteVerify v = Except.ok () ∧
      (isValidator A v.validator = true → hasVoted agg v.blockHash v.validator = false →
        ∀ sig : List ℕ, ∃ (b : Bool) (agg' : VoteAggregator),
          addVote agg { v with signature := sig } A = (Except.ok b, agg')) := by
  refine ⟨rfl, fun hv hnv sig => ?_⟩
  have h := addVote_accepted agg { v with signature := sig } A hv hnv
  exact ⟨_, (addVote agg { v with signature := sig } A).2, Prod.ext h.1 rfl⟩

/-- A concrete vote whose signer is validator 4 of `setW`. -/
def voteW2 : Vote := ⟨8, 9, 4, []⟩

/-- Witness for claim C10 at concrete inputs: an all-zero 65-byte
signature is accepted. -/
theorem claim_C10_witness :
    voteVerify voteW2 = Except.ok () ∧
      ∃ (b : Bool) (agg' : VoteAggregator),
        addVote emptyAggregator { voteW2 with signature := List.replicate 65 0 } setW =
          (Except.ok b, agg') :=
  ⟨(claim_C10 emptyAggregator voteW2 setW).1,
    (claim_C10 emptyAggregator voteW2 setW).2 (by decide) (by decide) (List.replicate 65 0)⟩

/-! ## Monotonicity of finalization -/

/-- An operation on the vote aggregator: `add_vote` with some vote and
active set, or `prune_before` with some cutoff. -/
inductive AggOp where
  | cast (v : Vote) (A : ValidatorSet)
  | prune (n : ℕ)

/-- Apply one aggregator operation (keeping the post-state). -/
def applyAggOp (agg : VoteAggregator) : AggOp → VoteAggregator
  | .cast v A => (addVote agg v A).2
  | .prune n => pruneBefore agg n

/-- Apply a sequence of aggregator operations. -/
def applyAggOps (agg : VoteAggregator) (ops : List AggOp) : VoteAggregator :=
  ops.foldl applyAggOp agg

lemma isFinalized_applyAggOp (agg : VoteAggregator) (op : AggOp) (h : ℕ)
    (hf : isFinalized agg h = true) : isFinalized (applyAggOp agg op) h = true := by
  cases op with
  | prune n => exact hf
  | cast v A =>
    unfold applyAggOp addVote voteVerify
    dsimp only
    unfold isFinalized at hf ⊢
    split
    · exact hf
    · split
      · exact hf
      · split
        · simp_all [List.elem_iff]
        · exact hf

/-- Claim C7: finalization is monotone — once `is_finalized h` holds it
holds after any further sequence of `add_vote` and `prune_before`
operations; no operation un-marks a BFT-final block. -/
theorem claim_C7 (agg : VoteAggregator) (h : ℕ) (ops : List AggOp)
    (hf : isFinalized agg h = true) : isFinalized (applyAggOps agg ops) h = true := by
  induction ops generalizing agg with
  | nil => exact hf
  | cons op rest ih => exact ih (applyAggOp agg op) (isFinalized_applyAggOp agg op h hf)

/-- Witness for claim C7 at concrete inputs: block 7 stays final across a
prune and a further vote. -/
theorem claim_C7_witness :
    isFinalized
      (applyAggOps ⟨[(7, [(1, ⟨7, 9, 1, []⟩)])], [7]⟩ [.prune 20, .cast ⟨7, 9, 2, []⟩ setW]) 7
      = true :=
  claim_C7 ⟨[(7, [(1, ⟨7, 9, 1, []⟩)])], [7]⟩ 7 [.prune 20, .cast ⟨7, 9, 2, []⟩ setW] (by decide)

/-- Claim C5 is a code bug: a single candidate with stake `0` — far below
`MIN_STAKE`, hence ineligible per the spec and per the crate's own
documentation ("Minimum stake: 10,000 MIA") — is nevertheless placed in
the active validator set: `from_validators`/`reorder` never filter by
stake. -/
theorem claim_C5_code_bug :
    (fromValidators [mkValidator 1 0 0] 1 0).ordered = [1] ∧
      meetsMinimumStake (mkValidator 1 0 0) = false ∧
      isValidator (fromValidators [mkValidator 1 0 0] 1 0) 1 = true := by
  refine ⟨?_, ?_, ?_⟩ <;> decide

/-! ## `latest_finalized` -/

lemma findBftFinal_eq_find (agg : VoteAggregator) (l : List ℕ) :
    findBftFinal agg l = l.find? fun h => isFinalized agg h := by
  induction l with
  | nil => rfl
  | cons h rest ih =>
    unfold findBftFinal
    rw [List.find?_cons]
    by_cases hb : isFinalized agg h = true <;> simp [hb, ih]

lemma findDepthFinal_eq_find (depths : List (ℕ × ℕ)) (l : List ℕ) :
    findDepthFinal depths l =
      l.find? fun h =>
        match lookupAssoc depths h with
        | some d => decide (implicitFinalityDepth ≤ d)
        | none => false := by
  induction l with
  | nil => rfl
  | cons h rest ih =>
    unfold findDepthFinal
    rw [List.find?_cons]
    cases hl : lookupAssoc depths h with
    | none => simp [hl, ih]
    | some d => by_cases hd : implicitFinalityDepth ≤ d <;> simp [hl, hd, ih]

/-- The concrete finality-tracker state refuting claim C8 as stated:
five canonical blocks 14, 13, 12, 11, 10 (most recent first), and block
10 — the oldest — voted to BFT finality by the single validator of a
one-validator set (threshold `1·2/3 + 1 = 1`). -/
def trackerCE : FinalityTracker :=
  let t := addBlock (addBlock (addBlock (addBlock (addBlock newTracker 10) 11) 12) 13) 14
  let A := fromValidators [mkValidator 21 0 0] 1 0
  { t with votes := (addVote t.votes ⟨10, 1, 21, List.replicate 65 0⟩ A).2 }

/-- Counterexample to claim C8 as stated: in `trackerCE` the first hash
of the sequence satisfying either finality rule is block 11 (depth 3),
but `latest_finalized` returns block 10, the BFT-final block further down
the sequence — the code scans the whole sequence for a BFT-final hash
before considering depth at all. -/
theorem claim_C8_counterexample :
    latestFinalized trackerCE = some 10 ∧ specFirstFinal trackerCE = some 11 ∧
      (10 : ℕ) ≠ 11 := by
  refine ⟨?_, ?_, ?_⟩ <;> decide

/-- Claim C8 amended: `latest_finalized` returns the first BFT-final hash
in the canonical sequence if any exists; only when no hash in the
sequence is BFT-final does it return the first hash with recorded depth
≥ 3; it returns nothing when no tracked hash satisfies either rule. -/
theorem claim_C8_amended (t : FinalityTracker) :
    latestFinalized t =
      match t.chain.find? fun h => isFinalized t.votes h with
      | some h => some h
      | none =>
        t.chain.find? fun h =>
          match lookupAssoc t.depths h with
          | some d => decide (implicitFinalityDepth ≤ d)
          | none => false := by
  unfold latestFinalized
  rw [findBftFinal_eq_find, findDepthFinal_eq_find]

end Permia
